import Mathlib

/-!
Verification of the classical UD-MIS simulated-annealing solver.

The source is a notebook defining a class `UDMIS` with methods
`find_edges`, `energy`, `energy_diff` and `rand_vertex`, a module-level
interaction strength `u` and a module-level point list `graph`, plus a
Metropolis step `mc_step` inherited from `abstract_udmis.AbstractUDMIS`.

The embedding below mirrors the source:
* coordinates and energies are exact rationals (the source uses floats);
* the ambient module-level variables `u` and `graph` are collected in a
  `Globals` value, passed explicitly to every method that reads them:
  `find_edges` reads coordinates from the global `graph` (the source
  writes bare `graph[i]`, not `self.graph[i]`), and `energy` /
  `energy_diff` read the global `u` (bare `u`, not `self.u`);
* fallible list accesses are `Option`-valued.
-/

set_option maxHeartbeats 1000000

/-- A 2-D point, one entry of the `graph` list of coordinate pairs. -/
abbrev Point := ℚ × ℚ

/-- Squared Euclidean distance between two points.  The source computes
`dij = np.sqrt((x_i - x_j)**2. + (y_i - y_j)**2.)` and then tests
`dij <= 1.0`; since `Real.sqrt d ≤ 1 ↔ d ≤ 1` for `0 ≤ d` (the bridge is
proved in `sqrt_dist2_le_one_iff` below), the edge test is embedded as
`dist2 ≤ 1`, which keeps it decidable. -/
def dist2 (p q : Point) : ℚ := (p.1 - q.1) ^ 2 + (p.2 - q.2) ^ 2

/-- Ambient module-level state of the notebook: the globals `u` and `graph`
set by the cell `u = 1.35; graph = [...]`.  The methods `find_edges`,
`energy` and `energy_diff` read these globals directly. -/
structure Globals where
  u : ℚ
  graph : List Point

/-- The integer a Python boolean contributes when used in arithmetic. -/
def bInt (b : Bool) : ℤ := if b then 1 else 0

/-- Occupation of vertex `v` read arithmetically (`occupations[v]`); the
indices the source uses are within range, so `getD` with default `false`
is a faithful totalisation. -/
def occI (occ : List Bool) (v : Nat) : ℤ := bInt (occ.getD v false)

/-- Python list indexing: a nonnegative index yields the element when in
range, a negative index `-k` yields element `len - k` when `k ≤ len`, and
anything else is an `IndexError`, i.e. `none`. -/
def pyGet (l : List Bool) (i : Int) : Option Bool :=
  if 0 ≤ i then l.get? i.toNat
  else if (-i).toNat ≤ l.length then l.get? (l.length - (-i).toNat)
  else none

/-- The update `edges[i,j] = True; edges[j,i] = True` on the boolean
adjacency matrix, represented as a function. -/
def setEdge (m : Nat → Nat → Bool) (i j : Nat) : Nat → Nat → Bool :=
  fun a b => if (a = i ∧ b = j) ∨ (a = j ∧ b = i) then true else m a b

/-- `UDMIS.find_edges`: starts from `np.zeros((n, n), dtype=bool)` and, for
`i in range(n-1)` and `j in range(i+1, n)`, sets both `edges[i,j]` and
`edges[j,i]` when the distance between the `i`-th and `j`-th point is at
most `1.0`.  The vertex count is `self.num_vertices`, but the coordinates
are read from the ambient global `graph` (the source writes `graph[i]`). -/
def find_edges (num_vertices : Nat) (graph : List Point) : Nat → Nat → Bool :=
  (List.range (num_vertices - 1)).foldl
    (fun edges i =>
      (List.range' (i + 1) (num_vertices - (i + 1))).foldl
        (fun edges j =>
          if dist2 (graph.getD i (0, 0)) (graph.getD j (0, 0)) ≤ 1 then setEdge edges i j
          else edges)
        edges)
    (fun _ _ => false)

/-- The state of one `UDMIS` instance: the stored constructor arguments
`self.u` and `self.graph`, the vertex count, the mutable occupation
vector and the adjacency matrix. -/
structure UDMIS where
  u : ℚ
  graph : List Point
  num_vertices : Nat
  occupations : List Bool
  edges : Nat → Nat → Bool

/-- `UDMIS.__init__(u, graph)`: stores `u` and `graph`, sets
`num_vertices = len(graph)`, draws one independent Bernoulli(0.5) boolean
per vertex (`np.random.rand(n) < 0.5`; the random draw is passed in as
`draw`), and builds `edges = self.find_edges()`.  Note that `find_edges`
reads its coordinates from the ambient global `graph` (`g.graph`), not
from the stored `self.graph`.  The constructor performs no validation of
its arguments. -/
def UDMIS.init (g : Globals) (u : ℚ) (graph : List Point) (draw : Nat → Bool) : UDMIS :=
  ⟨u, graph, graph.length, (List.range graph.length).map draw,
    find_edges graph.length g.graph⟩

/-- `UDMIS.energy`: the double loop `for i in range(n-1): for j in
range(i+1, n)` accumulates `occupations[i]*occupations[j]` for each edge
into `interaction_term` and `occupations[i]` into `vertex_term`, then adds
the missed last vertex `occupations[n-1]` and returns
`u*interaction_term - vertex_term` with the ambient global `u`.  The final
`occupations[self.num_vertices-1]` access is kept partial (`pyGet`): for
`num_vertices = 0` it is `occupations[-1]` on an empty vector, an
out-of-range access. -/
def UDMIS.energy (s : UDMIS) (g : Globals) : Option ℚ :=
  let n := s.num_vertices
  let interaction_term : ℤ :=
    ((List.range (n - 1)).map (fun i =>
      ((List.range' (i + 1) (n - (i + 1))).map (fun j =>
        if s.edges i j then occI s.occupations i * occI s.occupations j else 0)).sum)).sum
  let vertex_term : ℤ := ((List.range (n - 1)).map (fun i => occI s.occupations i)).sum
  match pyGet s.occupations ((n : Int) - 1) with
  | none => none
  | some last => some (g.u * (interaction_term : ℚ) - ((vertex_term + bInt last : ℤ) : ℚ))

/-- `UDMIS.energy_diff(i)`: `connections = np.where(self.edges[i,:])[0]`
collects the row-`i` neighbours, `num_adjacent_occupied` counts the
occupied ones, and the result is `interaction_term_change +
vertex_term_change`, namely `-u*k + 1` when vertex `i` is occupied and
`u*k + (-1)` when it is not, with the ambient global `u`.  The access
`occupations[i]` is partial for an out-of-range `i`. -/
def UDMIS.energy_diff (s : UDMIS) (g : Globals) (i : Nat) : Option ℚ :=
  let connections := (List.range s.num_vertices).filter (fun j => s.edges i j)
  let num_adjacent_occupied : ℤ := (connections.map (fun j => occI s.occupations j)).sum
  match s.occupations.get? i with
  | none => none
  | some occi =>
    if occi then some (-g.u * (num_adjacent_occupied : ℚ) + 1)
    else some (g.u * (num_adjacent_occupied : ℚ) + (-1))

/-- Flipping `occupations[i]` in place, as an accepted Metropolis move
does (`self.occupations[i] = not self.occupations[i]`). -/
def UDMIS.toggle (s : UDMIS) (i : Nat) : UDMIS :=
  ⟨s.u, s.graph, s.num_vertices,
    s.occupations.set i (!s.occupations.getD i false), s.edges⟩

/-- Modelled from the spec: the Metropolis step `mc_step` is defined in
`abstract_udmis.py`, which the notebook imports but which is not part of
the source tree.  Following the spec: pick a vertex `i` (the uniformly
random vertex choice and the uniform draw `r` on `[0,1)` are passed in as
parameters), compute `ΔE = energy_diff(i)`, toggle `occupations[i]` when
`ΔE ≤ 0`, otherwise toggle exactly when the draw satisfies
`r < exp(-ΔE / T)`, and return the total energy of the resulting
configuration. -/
noncomputable def UDMIS.mc_step (s : UDMIS) (g : Globals) (T : ℝ) (i : Nat) (r : ℝ) :
    Option (UDMIS × ℚ) :=
  match s.energy_diff g i with
  | none => none
  | some dE =>
    let s' := if dE ≤ 0 then s.toggle i
      else if r < Real.exp (-(dE : ℝ) / T) then s.toggle i else s
    (s'.energy g).map (fun E => (s', E))

/-! Closed form of the adjacency relation built by `find_edges`. -/

lemma setEdge_true_iff (m : Nat → Nat → Bool) (i j a b : Nat) :
    setEdge m i j a b = true ↔ ((a = i ∧ b = j) ∨ (a = j ∧ b = i)) ∨ m a b = true := by
  unfold setEdge
  split <;> simp_all

lemma foldl_edges_acc (step : (Nat → Nat → Bool) → Nat → (Nat → Nat → Bool))
    (Q : Nat → Nat → Nat → Prop)
    (hstep : ∀ m i a b, (step m i) a b = true ↔ (m a b = true ∨ Q i a b)) :
    ∀ (l : List Nat) (m : Nat → Nat → Bool) (a b : Nat),
      ((l.foldl step m) a b = true) ↔ (m a b = true ∨ ∃ i ∈ l, Q i a b) := by
  intro l
  induction l with
  | nil => simp
  | cons i l ih =>
    intro m a b
    simp only [List.foldl_cons, ih, List.mem_cons, hstep]
    constructor
    · rintro (h | h)
      · rcases h with h | h
        · exact Or.inl h
        · exact Or.inr ⟨i, Or.inl rfl, h⟩
      · obtain ⟨i', hi', hq⟩ := h
        exact Or.inr ⟨i', Or.inr hi', hq⟩
    · rintro (h | ⟨i', hi' | hi', hq⟩)
      · exact Or.inl (Or.inl h)
      · subst hi'; exact Or.inl (Or.inr hq)
      · exact Or.inr ⟨i', hi', hq⟩

lemma find_edges_true_iff (n : Nat) (g : List (ℚ × ℚ)) (a b : Nat) :
    find_edges n g a b = true ↔
      ∃ i j, i < j ∧ j < n ∧ dist2 (g.getD i (0, 0)) (g.getD j (0, 0)) ≤ 1 ∧
        ((a = i ∧ b = j) ∨ (a = j ∧ b = i)) := by
  have hinner : ∀ (i : Nat) (m : Nat → Nat → Bool) (a b : Nat),
      ((List.range' (i + 1) (n - (i + 1))).foldl
        (fun ed j => if dist2 (g.getD i (0, 0)) (g.getD j (0, 0)) ≤ 1 then setEdge ed i j
          else ed) m) a b = true ↔
      (m a b = true ∨ ∃ j ∈ List.range' (i + 1) (n - (i + 1)),
        dist2 (g.getD i (0, 0)) (g.getD j (0, 0)) ≤ 1 ∧ ((a = i ∧ b = j) ∨ (a = j ∧ b = i))) := by
    intro i m a b
    refine foldl_edges_acc (fun ed j => if dist2 (g.getD i (0, 0)) (g.getD j (0, 0)) ≤ 1 then setEdge ed i j else ed)
      (fun j a b => dist2 (g.getD i (0, 0)) (g.getD j (0, 0)) ≤ 1 ∧ ((a = i ∧ b = j) ∨ (a = j ∧ b = i)))
      ?_ _ _ a b
    intro m' j a' b'
    dsimp only
    by_cases hd : dist2 (g.getD i (0, 0)) (g.getD j (0, 0)) ≤ 1
    · rw [if_pos hd, setEdge_true_iff]
      tauto
    · rw [if_neg hd]
      tauto
  have H := foldl_edges_acc
    (fun ed i => (List.range' (i + 1) (n - (i + 1))).foldl
      (fun ed j => if dist2 (g.getD i (0, 0)) (g.getD j (0, 0)) ≤ 1 then setEdge ed i j
        else ed) ed)
    (fun i a b => ∃ j ∈ List.range' (i + 1) (n - (i + 1)),
      dist2 (g.getD i (0, 0)) (g.getD j (0, 0)) ≤ 1 ∧ ((a = i ∧ b = j) ∨ (a = j ∧ b = i)))
    (fun m i a b => hinner i m a b)
    (List.range (n - 1)) (fun _ _ => false) a b
  unfold find_edges
  rw [H]
  simp only [Bool.false_eq_true, false_or, List.mem_range, List.mem_range'_1]
  constructor
  · rintro ⟨i, hi, j, ⟨hj1, hj2⟩, hd, hh⟩
    exact ⟨i, j, by omega, by omega, hd, hh⟩
  · rintro ⟨i, j, hij, hjn, hd, hh⟩
    exact ⟨i, by omega, j, ⟨by omega, by omega⟩, hd, hh⟩

lemma dist2_comm (p q : ℚ × ℚ) : dist2 p q = dist2 q p := by
  unfold dist2; ring

lemma dist2_nonneg (p q : ℚ × ℚ) : 0 ≤ dist2 p q := by
  unfold dist2; positivity

lemma sqrt_dist2_le_one_iff (p q : ℚ × ℚ) :
    Real.sqrt ((dist2 p q : ℚ) : ℝ) ≤ 1 ↔ dist2 p q ≤ 1 := by
  rw [Real.sqrt_le_left (by norm_num : (0 : ℝ) ≤ 1)]
  rw [one_pow]
  exact_mod_cast Iff.rfl

lemma find_edges_symm (n : Nat) (g : List (ℚ × ℚ)) (a b : Nat) :
    find_edges n g a b = find_edges n g b a := by
  rw [Bool.eq_iff_iff, find_edges_true_iff, find_edges_true_iff]
  constructor
  · rintro ⟨i, j, h1, h2, h3, h4⟩
    exact ⟨i, j, h1, h2, h3, by tauto⟩
  · rintro ⟨i, j, h1, h2, h3, h4⟩
    exact ⟨i, j, h1, h2, h3, by tauto⟩

lemma find_edges_self (n : Nat) (g : List (ℚ × ℚ)) (a : Nat) :
    find_edges n g a a = false := by
  rw [← Bool.not_eq_true, find_edges_true_iff]
  rintro ⟨i, j, h1, h2, h3, ⟨rfl, rfl⟩ | ⟨rfl, rfl⟩⟩ <;> omega

lemma find_edges_true_iff_lt (n : Nat) (g : List (ℚ × ℚ)) (a b : Nat)
    (ha : a < n) (hb : b < n) :
    find_edges n g a b = true ↔
      a ≠ b ∧ dist2 (g.getD a (0, 0)) (g.getD b (0, 0)) ≤ 1 := by
  rw [find_edges_true_iff]
  constructor
  · rintro ⟨i, j, h1, h2, h3, ⟨rfl, rfl⟩ | ⟨rfl, rfl⟩⟩
    · exact ⟨by omega, h3⟩
    · exact ⟨by omega, by rw [dist2_comm]; exact h3⟩
  · rintro ⟨hab, hd⟩
    rcases Nat.lt_or_ge a b with h | h
    · exact ⟨a, b, h, hb, hd, Or.inl ⟨rfl, rfl⟩⟩
    · exact ⟨b, a, by omega, ha, by rw [dist2_comm]; exact hd, Or.inr ⟨rfl, rfl⟩⟩

/-! Finset reformulations of the energy sums, used to state and prove the
energy theorems. -/

/-- Interaction term of the Hamiltonian: one summand per pair `i < j`. -/
def ISum (n : Nat) (e : Nat → Nat → Bool) (occ : List Bool) : ℤ :=
  ∑ i ∈ Finset.range n, ∑ j ∈ Finset.Ico (i + 1) n,
    if e i j then occI occ i * occI occ j else 0

/-- Vertex term: the number of occupied vertices among `0..n-1`. -/
def VSum (n : Nat) (occ : List Bool) : ℤ :=
  ∑ v ∈ Finset.range n, occI occ v

/-- Number of occupied neighbours of `i` (row `i` of the adjacency matrix). -/
def KSum (n : Nat) (e : Nat → Nat → Bool) (occ : List Bool) (i : Nat) : ℤ :=
  ∑ j ∈ Finset.range n, if e i j then occI occ j else 0

lemma sum_map_range (f : Nat → ℤ) (n : Nat) :
    ((List.range n).map f).sum = ∑ x ∈ Finset.range n, f x := by
  induction n with
  | zero => simp
  | succ n ih => rw [List.range_succ, Finset.sum_range_succ]; simp [ih]

lemma sum_map_range' (f : Nat → ℤ) (s n : Nat) :
    ((List.range' s n).map f).sum = ∑ x ∈ Finset.Ico s (s + n), f x := by
  rw [List.range'_eq_map_range, List.map_map, sum_map_range, Finset.sum_Ico_eq_sum_range]
  simp [Function.comp]

lemma sum_filter_map (p : Nat → Bool) (f : Nat → ℤ) (l : List Nat) :
    ((l.filter p).map f).sum = (l.map (fun x => if p x then f x else 0)).sum := by
  induction l with
  | nil => simp
  | cons x l ih => by_cases h : p x <;> simp [List.filter_cons, h, ih]

lemma energy_eq (s : UDMIS) (g : Globals)
    (hlen : s.occupations.length = s.num_vertices) (hn : 1 ≤ s.num_vertices) :
    s.energy g = some (g.u * (ISum s.num_vertices s.edges s.occupations : ℚ)
      - (VSum s.num_vertices s.occupations : ℚ)) := by
  have h0 : (0 : ℤ) ≤ (s.num_vertices : ℤ) - 1 := by omega
  have htoNat : ((s.num_vertices : ℤ) - 1).toNat = s.num_vertices - 1 := by omega
  have hlt : s.num_vertices - 1 < s.occupations.length := by omega
  have hget : pyGet s.occupations ((s.num_vertices : ℤ) - 1) =
      some (s.occupations.getD (s.num_vertices - 1) false) := by
    unfold pyGet
    rw [if_pos h0, htoNat, List.get?_eq_getElem?, List.getElem?_eq_getElem hlt]
    rw [List.getD_eq_getElem?_getD, List.getElem?_eq_getElem hlt]
    rfl
  obtain ⟨m, hm⟩ : ∃ m, s.num_vertices = m + 1 := ⟨s.num_vertices - 1, by omega⟩
  have hI : ((List.range (s.num_vertices - 1)).map (fun i =>
      ((List.range' (i + 1) (s.num_vertices - (i + 1))).map (fun j =>
        if s.edges i j then occI s.occupations i * occI s.occupations j else 0)).sum)).sum
      = ISum s.num_vertices s.edges s.occupations := by
    rw [hm]
    simp only [Nat.add_sub_cancel]
    rw [sum_map_range]
    unfold ISum
    rw [Finset.sum_range_succ, Finset.Ico_self, Finset.sum_empty, add_zero]
    refine Finset.sum_congr rfl ?_
    intro i hi
    rw [Finset.mem_range] at hi
    rw [sum_map_range']
    have harith : (i + 1) + ((m + 1) - (i + 1)) = m + 1 := by omega
    rw [harith]
  have hV : ((List.range (s.num_vertices - 1)).map (fun i => occI s.occupations i)).sum
      + bInt (s.occupations.getD (s.num_vertices - 1) false)
      = VSum s.num_vertices s.occupations := by
    rw [hm]
    simp only [Nat.add_sub_cancel]
    rw [sum_map_range]
    unfold VSum
    rw [Finset.sum_range_succ]
    rfl
  simp only [UDMIS.energy, hget]
  rw [Option.some.injEq, ← hI, ← hV]

lemma energy_diff_eq (s : UDMIS) (g : Globals) (i : Nat)
    (hi : i < s.occupations.length) :
    s.energy_diff g i = some (if s.occupations.getD i false then
        -g.u * (KSum s.num_vertices s.edges s.occupations i : ℚ) + 1
      else g.u * (KSum s.num_vertices s.edges s.occupations i : ℚ) + (-1)) := by
  have hget : s.occupations.get? i = some (s.occupations.getD i false) := by
    rw [List.get?_eq_getElem?, List.getElem?_eq_getElem hi,
      List.getD_eq_getElem?_getD, List.getElem?_eq_getElem hi]
    rfl
  have hK : (((List.range s.num_vertices).filter (fun j => s.edges i j)).map
      (fun j => occI s.occupations j)).sum
      = KSum s.num_vertices s.edges s.occupations i := by
    rw [sum_filter_map, sum_map_range]
    rfl
  simp only [UDMIS.energy_diff, hget, hK]
  by_cases hb : s.occupations.getD i false = true
  · rw [if_pos hb, if_pos hb]
  · rw [if_neg hb, if_neg hb]

lemma VSum_eq_count (occ : List Bool) : VSum occ.length occ = (occ.count true : ℤ) := by
  induction occ with
  | nil => simp [VSum]
  | cons x xs ih =>
    unfold VSum at ih ⊢
    rw [List.length_cons, Finset.sum_range_succ']
    have h1 : ∀ v, occI (x :: xs) (v + 1) = occI xs v := fun v => rfl
    have h0 : occI (x :: xs) 0 = bInt x := rfl
    simp only [h1, h0]
    rw [ih, List.count_cons]
    cases x <;> simp [bInt]

lemma bInt_mul (x y : Bool) : bInt x * bInt y = if x = true ∧ y = true then (1 : ℤ) else 0 := by
  cases x <;> cases y <;> simp [bInt]

lemma ISum_eq_card (n : Nat) (e : Nat → Nat → Bool) (occ : List Bool) :
    ISum n e occ = (((Finset.range n ×ˢ Finset.range n).filter (fun p =>
      p.1 < p.2 ∧ e p.1 p.2 = true ∧ occ.getD p.1 false = true
        ∧ occ.getD p.2 false = true)).card : ℤ) := by
  rw [Finset.natCast_card_filter, Finset.sum_product]
  unfold ISum
  refine Finset.sum_congr rfl ?_
  intro a _
  have hfilter : Finset.Ico (a + 1) n = (Finset.range n).filter (fun b => a < b) := by
    ext b
    simp only [Finset.mem_Ico, Finset.mem_filter, Finset.mem_range]
    omega
  have hsplit : ∀ b : Nat, (if a < b ∧ e a b = true ∧ occ.getD a false = true
        ∧ occ.getD b false = true then (1 : ℤ) else 0)
      = if a < b then (if e a b then occI occ a * occI occ b else 0) else 0 := by
    intro b
    simp only [occI, bInt_mul, ite_and]
  simp only [hsplit]
  rw [hfilter, Finset.sum_filter]

lemma bInt_not (b : Bool) : bInt (!b) = 1 - bInt b := by
  cases b <;> simp [bInt]

lemma occI_set (occ : List Bool) (i : Nat) (hi : i < occ.length) (v : Nat) :
    occI (occ.set i (!occ.getD i false)) v
      = occI occ v + (if v = i then 1 - 2 * occI occ i else 0) := by
  by_cases hvi : v = i
  · subst hvi
    unfold occI
    rw [if_pos rfl, List.getD_eq_getElem?_getD, List.getElem?_set_self hi,
      Option.getD_some, bInt_not, List.getD_eq_getElem?_getD,
      List.getElem?_eq_getElem hi]
    simp only [Option.getD_some]
    ring
  · unfold occI
    rw [if_neg hvi, add_zero, List.getD_eq_getElem?_getD,
      List.getElem?_set_ne (fun h => hvi h.symm), List.getD_eq_getElem?_getD]

lemma VSum_set (n : Nat) (occ : List Bool) (i : Nat)
    (hi : i < occ.length) (hin : i < n) :
    VSum n (occ.set i (!occ.getD i false)) = VSum n occ + (1 - 2 * occI occ i) := by
  unfold VSum
  rw [Finset.sum_congr rfl (fun v _ => occI_set occ i hi v), Finset.sum_add_distrib,
    Finset.sum_ite_eq' (Finset.range n) i (fun _ => 1 - 2 * occI occ i),
    if_pos (Finset.mem_range.mpr hin)]

/-- Per-pair change of the interaction summand when vertex `i` is flipped. -/
def flipG (e : Nat → Nat → Bool) (occ : List Bool) (i a b : Nat) : ℤ :=
  if a = i then (if e i b then (1 - 2 * occI occ i) * occI occ b else 0)
  else if b = i then (if e i a then occI occ a * (1 - 2 * occI occ i) else 0) else 0

lemma ISum_set (n : Nat) (e : Nat → Nat → Bool) (occ : List Bool) (i : Nat)
    (hi : i < occ.length) (hin : i < n)
    (hsym : ∀ a b, e a b = e b a) (hirr : ∀ a, e a a = false) :
    ISum n e (occ.set i (!occ.getD i false))
      = ISum n e occ + (1 - 2 * occI occ i) * KSum n e occ i := by
  have hpoint : ∀ a ∈ Finset.range n, ∀ b ∈ Finset.Ico (a + 1) n,
      (if e a b then occI (occ.set i (!occ.getD i false)) a
          * occI (occ.set i (!occ.getD i false)) b else 0)
        = (if e a b then occI occ a * occI occ b else 0) + flipG e occ i a b := by
    intro a _ b hb
    have hab : a < b := by
      have := Finset.mem_Ico.mp hb
      omega
    rw [occI_set occ i hi a, occI_set occ i hi b]
    unfold flipG
    by_cases hai : a = i
    · subst hai
      have hbi : ¬b = a := by omega
      rw [if_pos rfl, if_neg hbi, if_pos rfl, add_zero]
      by_cases he : e a b = true
      · rw [if_pos he, if_pos he, if_pos he]
        ring
      · rw [if_neg he, if_neg he, if_neg he]
        ring
    · by_cases hbi : b = i
      · rw [hbi, if_neg hai, if_pos rfl, if_neg hai, if_pos rfl, add_zero, hsym i a]
        by_cases he : e a i = true
        · rw [if_pos he, if_pos he, if_pos he]
          ring
        · rw [if_neg he, if_neg he, if_neg he]
          ring
      · rw [if_neg hai, if_neg hbi, if_neg hai, if_neg hbi, add_zero, add_zero, add_zero]
  have hGsum : ∑ a ∈ Finset.range n, ∑ b ∈ Finset.Ico (a + 1) n, flipG e occ i a b
      = (1 - 2 * occI occ i) * KSum n e occ i := by
    rw [Finset.sum_eq_sum_diff_singleton_add (Finset.mem_range.mpr hin)
      (fun a => ∑ b ∈ Finset.Ico (a + 1) n, flipG e occ i a b)]
    have hInner_i : ∑ b ∈ Finset.Ico (i + 1) n, flipG e occ i i b
        = (1 - 2 * occI occ i)
          * ∑ b ∈ Finset.Ico (i + 1) n, (if e i b then occI occ b else 0) := by
      rw [Finset.mul_sum]
      refine Finset.sum_congr rfl ?_
      intro b _
      unfold flipG
      rw [if_pos rfl]
      by_cases he : e i b = true
      · rw [if_pos he, if_pos he]
      · rw [if_neg he, if_neg he]
        ring
    have hInner_ne : ∀ a ∈ Finset.range n \ {i},
        ∑ b ∈ Finset.Ico (a + 1) n, flipG e occ i a b
          = (if a < i then (if e i a then occI occ a * (1 - 2 * occI occ i) else 0)
            else 0) := by
      intro a ha
      have hane : a ≠ i := by
        rw [Finset.mem_sdiff, Finset.mem_singleton] at ha
        exact ha.2
      have hG : ∀ b ∈ Finset.Ico (a + 1) n, flipG e occ i a b
          = if b = i then (if e i a then occI occ a * (1 - 2 * occI occ i) else 0)
            else 0 := by
        intro b _
        unfold flipG
        rw [if_neg hane]
      rw [Finset.sum_congr rfl hG, Finset.sum_ite_eq' (Finset.Ico (a + 1) n) i
        (fun _ => if e i a then occI occ a * (1 - 2 * occI occ i) else 0)]
      by_cases hlt : a < i
      · rw [if_pos (by rw [Finset.mem_Ico]; omega), if_pos hlt]
      · rw [if_neg (by rw [Finset.mem_Ico]; omega), if_neg hlt]
    rw [Finset.sum_congr rfl hInner_ne, hInner_i]
    have hback : ∑ a ∈ Finset.range n \ {i},
        (if a < i then (if e i a then occI occ a * (1 - 2 * occI occ i) else 0) else 0)
        = ∑ a ∈ Finset.range n,
          (if a < i then (if e i a then occI occ a * (1 - 2 * occI occ i) else 0)
            else 0) := by
      rw [Finset.sum_eq_sum_diff_singleton_add (Finset.mem_range.mpr hin)
        (fun a => if a < i then (if e i a then occI occ a * (1 - 2 * occI occ i) else 0)
          else 0)]
      rw [if_neg (lt_irrefl i), add_zero]
    rw [hback]
    have hlow : ∑ a ∈ Finset.range n,
        (if a < i then (if e i a then occI occ a * (1 - 2 * occI occ i) else 0) else 0)
        = (1 - 2 * occI occ i)
          * ∑ a ∈ Finset.range i, (if e i a then occI occ a else 0) := by
      rw [← Finset.sum_filter]
      have hfr : (Finset.range n).filter (fun a => a < i) = Finset.range i := by
        ext a
        simp only [Finset.mem_filter, Finset.mem_range]
        omega
      rw [hfr, Finset.mul_sum]
      refine Finset.sum_congr rfl ?_
      intro a _
      by_cases he : e i a = true
      · rw [if_pos he, if_pos he]
        ring
      · rw [if_neg he, if_neg he]
        ring
    rw [hlow]
    have hKs : KSum n e occ i
        = (∑ a ∈ Finset.range i, (if e i a then occI occ a else 0))
          + ∑ b ∈ Finset.Ico (i + 1) n, (if e i b then occI occ b else 0) := by
      unfold KSum
      rw [← Finset.sum_range_add_sum_Ico _ (show i + 1 ≤ n by omega),
        Finset.sum_range_succ, hirr i]
      simp
    rw [hKs]
    ring
  unfold ISum
  calc ∑ a ∈ Finset.range n, ∑ b ∈ Finset.Ico (a + 1) n,
        (if e a b then occI (occ.set i (!occ.getD i false)) a
          * occI (occ.set i (!occ.getD i false)) b else 0)
      = ∑ a ∈ Finset.range n, ∑ b ∈ Finset.Ico (a + 1) n,
        ((if e a b then occI occ a * occI occ b else 0) + flipG e occ i a b) :=
        Finset.sum_congr rfl (fun a ha => Finset.sum_congr rfl (fun b hb => hpoint a ha b hb))
    _ = (∑ a ∈ Finset.range n, ∑ b ∈ Finset.Ico (a + 1) n,
          (if e a b then occI occ a * occI occ b else 0))
        + ∑ a ∈ Finset.range n, ∑ b ∈ Finset.Ico (a + 1) n, flipG e occ i a b := by
        rw [← Finset.sum_add_distrib]
        exact Finset.sum_congr rfl fun a _ => Finset.sum_add_distrib
    _ = (∑ a ∈ Finset.range n, ∑ b ∈ Finset.Ico (a + 1) n,
          (if e a b then occI occ a * occI occ b else 0))
        + (1 - 2 * occI occ i) * KSum n e occ i := by rw [hGsum]

lemma energy_toggle (s : UDMIS) (g : Globals)
    (hlen : s.occupations.length = s.num_vertices)
    (hsym : ∀ a b, s.edges a b = s.edges b a)
    (hirr : ∀ a, s.edges a a = false)
    (i : Nat) (hi : i < s.num_vertices) :
    ∃ E dE, s.energy g = some E ∧ s.energy_diff g i = some dE ∧
      (s.toggle i).energy g = some (E + dE) := by
  have hn : 1 ≤ s.num_vertices := by omega
  have hi' : i < s.occupations.length := by omega
  refine ⟨_, _, energy_eq s g hlen hn, energy_diff_eq s g i hi', ?_⟩
  have hTlen : (s.toggle i).occupations.length = (s.toggle i).num_vertices := by
    show (s.occupations.set i (!s.occupations.getD i false)).length = s.num_vertices
    rw [List.length_set, hlen]
  rw [energy_eq (s.toggle i) g hTlen hn]
  show some (g.u * (ISum s.num_vertices s.edges
      (s.occupations.set i (!s.occupations.getD i false)) : ℚ)
    - (VSum s.num_vertices (s.occupations.set i (!s.occupations.getD i false)) : ℚ)) = _
  rw [ISum_set s.num_vertices s.edges s.occupations i hi' hi hsym hirr,
    VSum_set s.num_vertices s.occupations i hi' hi]
  rw [Option.some.injEq]
  by_cases hb : s.occupations.getD i false = true
  · have ho : occI s.occupations i = 1 := by
      unfold occI
      rw [hb]
      rfl
    rw [if_pos hb, ho]
    push_cast
    ring
  · have ho : occI s.occupations i = 0 := by
      unfold occI bInt
      rw [if_neg hb]
    rw [if_neg hb, ho]
    push_cast
    ring

/-- C1: Energy consistency of the incremental update.  For every graph (any
symmetric, self-loop-free adjacency relation, as `find_edges` produces),
every ambient interaction strength `g.u`, every occupation configuration
and every valid vertex index `i`, the total energy after toggling
`occupations[i]` equals the total energy before the toggle plus
`energy_diff(i)` evaluated before the toggle; the occupation of `i` is
arbitrary, so both flip directions are covered. -/
theorem C1_energy_consistency (s : UDMIS) (g : Globals)
    (hlen : s.occupations.length = s.num_vertices)
    (hsym : ∀ a b, s.edges a b = s.edges b a)
    (hirr : ∀ a, s.edges a a = false)
    (i : Nat) (hi : i < s.num_vertices) :
    ∃ E dE, s.energy g = some E ∧ s.energy_diff g i = some dE ∧
      (s.toggle i).energy g = some (E + dE) :=
  energy_toggle s g hlen hsym hirr i hi

/-- Witness for C1 at a concrete two-vertex instance with one edge. -/
theorem C1_energy_consistency_witness :
    ∃ E dE,
      UDMIS.energy ⟨3 / 2, [(0, 0), (1, 0)], 2, [true, true],
          find_edges 2 [(0, 0), (1, 0)]⟩ ⟨3 / 2, [(0, 0), (1, 0)]⟩ = some E
      ∧ UDMIS.energy_diff ⟨3 / 2, [(0, 0), (1, 0)], 2, [true, true],
          find_edges 2 [(0, 0), (1, 0)]⟩ ⟨3 / 2, [(0, 0), (1, 0)]⟩ 0 = some dE
      ∧ UDMIS.energy (UDMIS.toggle ⟨3 / 2, [(0, 0), (1, 0)], 2, [true, true],
          find_edges 2 [(0, 0), (1, 0)]⟩ 0) ⟨3 / 2, [(0, 0), (1, 0)]⟩ = some (E + dE) :=
  C1_energy_consistency ⟨3 / 2, [(0, 0), (1, 0)], 2, [true, true],
      find_edges 2 [(0, 0), (1, 0)]⟩ ⟨3 / 2, [(0, 0), (1, 0)]⟩ rfl
    (find_edges_symm 2 [(0, 0), (1, 0)]) (find_edges_self 2 [(0, 0), (1, 0)])
    0 (by norm_num)

/-- C2: TotalEnergy matches the UD-MIS Hamiltonian: for every solver state
with at least one vertex, `energy()` returns the ambient `u` times the
number of adjacent pairs `(i, j)` with `i < j` in which both vertices are
occupied, minus the number of occupied vertices. -/
theorem C2_total_energy (s : UDMIS) (g : Globals)
    (hlen : s.occupations.length = s.num_vertices) (hn : 1 ≤ s.num_vertices) :
    s.energy g = some (g.u
        * (((Finset.range s.num_vertices ×ˢ Finset.range s.num_vertices).filter
          (fun p => p.1 < p.2 ∧ s.edges p.1 p.2 = true
            ∧ s.occupations.getD p.1 false = true
            ∧ s.occupations.getD p.2 false = true)).card : ℚ)
      - (s.occupations.count true : ℚ)) := by
  have hV : VSum s.num_vertices s.occupations = (s.occupations.count true : ℤ) := by
    rw [← hlen]
    exact VSum_eq_count s.occupations
  rw [energy_eq s g hlen hn, ISum_eq_card, hV, Option.some.injEq]
  push_cast
  ring

/-- Witness for C2 at a concrete two-vertex instance with one edge. -/
theorem C2_total_energy_witness :
    UDMIS.energy ⟨3 / 2, [(0, 0), (1, 0)], 2, [true, true],
        find_edges 2 [(0, 0), (1, 0)]⟩ ⟨3 / 2, [(0, 0), (1, 0)]⟩
      = some ((3 / 2 : ℚ)
        * (((Finset.range 2 ×ˢ Finset.range 2).filter
          (fun p => p.1 < p.2 ∧ find_edges 2 [(0, 0), (1, 0)] p.1 p.2 = true
            ∧ [true, true].getD p.1 false = true
            ∧ [true, true].getD p.2 false = true)).card : ℚ)
      - (([true, true] : List Bool).count true : ℚ)) :=
  C2_total_energy ⟨3 / 2, [(0, 0), (1, 0)], 2, [true, true],
      find_edges 2 [(0, 0), (1, 0)]⟩ ⟨3 / 2, [(0, 0), (1, 0)]⟩ rfl (by norm_num)

/-- C4: Adjacency relation correctness and invariants: for every point
sequence, `find_edges` (applied, as in the notebook, to that sequence as
both the instance graph and the ambient global graph) relates `a` and `b`
iff `a ≠ b` and the Euclidean distance between point `a` and point `b` is
at most the radius `1.0`; the relation is symmetric and has no
self-loops. -/
theorem C4_adjacency (pts : List Point) :
    (∀ a b, a < pts.length → b < pts.length →
      (find_edges pts.length pts a b = true ↔
        a ≠ b ∧ Real.sqrt ((dist2 (pts.getD a (0, 0)) (pts.getD b (0, 0)) : ℚ)) ≤ 1))
    ∧ (∀ a b, find_edges pts.length pts a b = find_edges pts.length pts b a)
    ∧ (∀ a, find_edges pts.length pts a a = false) := by
  refine ⟨?_, fun a b => find_edges_symm pts.length pts a b,
    fun a => find_edges_self pts.length pts a⟩
  intro a b ha hb
  rw [find_edges_true_iff_lt pts.length pts a b ha hb, sqrt_dist2_le_one_iff]

/-- Witness for C4 at a concrete two-point sequence. -/
theorem C4_adjacency_witness :
    find_edges [((0 : ℚ), (0 : ℚ)), (1, 0)].length [((0 : ℚ), (0 : ℚ)), (1, 0)] 0 1 = true ↔
      (0 : Nat) ≠ 1 ∧ Real.sqrt ((dist2 ([((0 : ℚ), (0 : ℚ)), (1, 0)].getD 0 (0, 0))
        ([((0 : ℚ), (0 : ℚ)), (1, 0)].getD 1 (0, 0)) : ℚ)) ≤ 1 :=
  (C4_adjacency [((0 : ℚ), (0 : ℚ)), (1, 0)]).1 0 1 (by norm_num) (by norm_num)

/-- C8: Degenerate point sets yield an empty graph: for every input with at
most one point, `find_edges` returns a relation with no edges at all. -/
theorem C8_degenerate_empty (pts : List Point) (h : pts.length ≤ 1) :
    ∀ a b, find_edges pts.length pts a b = false := by
  intro a b
  rw [← Bool.not_eq_true, find_edges_true_iff]
  rintro ⟨i, j, hij, hjn, _, _⟩
  omega

/-- Witness for C8 at a one-point sequence. -/
theorem C8_degenerate_empty_witness :
    [((0 : ℚ), (0 : ℚ))].length ≤ 1
    ∧ find_edges [((0 : ℚ), (0 : ℚ))].length [((0 : ℚ), (0 : ℚ))] 0 1 = false :=
  ⟨by norm_num, C8_degenerate_empty [((0 : ℚ), (0 : ℚ))] (by norm_num) 0 1⟩

/-- C10: `energy()` is partial at `n = 0`: for a solver constructed from an
empty point set the final access `occupations[num_vertices - 1]` is
out-of-range, so the total embedding returns `none`; with the length
invariant and at least one vertex, `energy()` always returns a value. -/
theorem C10_energy_out_of_range :
    (∀ (g : Globals) (u : ℚ) (draw : Nat → Bool),
      (UDMIS.init g u [] draw).energy g = none)
    ∧ ∀ (g : Globals) (s : UDMIS), s.occupations.length = s.num_vertices →
        1 ≤ s.num_vertices → (s.energy g).isSome = true := by
  constructor
  · intro g u draw
    rfl
  · intro g s hlen hn
    rw [energy_eq s g hlen hn]
    rfl

/-- Witness for C10: an empty solver yields `none`, a one-vertex solver a value. -/
theorem C10_energy_out_of_range_witness :
    (UDMIS.init ⟨1, []⟩ 1 [] (fun _ => false)).energy ⟨1, []⟩ = none
    ∧ (UDMIS.energy ⟨1, [(0, 0)], 1, [true], fun _ _ => false⟩
        ⟨1, [(0, 0)]⟩).isSome = true :=
  ⟨C10_energy_out_of_range.1 ⟨1, []⟩ 1 (fun _ => false),
    C10_energy_out_of_range.2 ⟨1, [(0, 0)]⟩ ⟨1, [(0, 0)], 1, [true], fun _ _ => false⟩
      rfl (by norm_num)⟩

/-- C9: the energy computations read the ambient module-level `u`, not the
constructor-supplied `self.u`: for a fixed adjacency relation and
occupation configuration, `energy()` and `energy_diff(i)` are determined by
the ambient global `u` alone, and two instances constructed with different
`u` arguments under the same ambient globals return identical energies. -/
theorem C9_ambient_u (g1 g2 : Globals) (hu : g1.u = g2.u) (s1 s2 : UDMIS)
    (hn : s1.num_vertices = s2.num_vertices)
    (ho : s1.occupations = s2.occupations)
    (he : s1.edges = s2.edges) :
    (s1.energy g1 = s2.energy g2
      ∧ ∀ i, s1.energy_diff g1 i = s2.energy_diff g2 i)
    ∧ ∀ (u1 u2 : ℚ) (pts : List Point) (draw : Nat → Bool),
        (UDMIS.init g1 u1 pts draw).energy g1 = (UDMIS.init g1 u2 pts draw).energy g1
        ∧ ∀ i, (UDMIS.init g1 u1 pts draw).energy_diff g1 i
            = (UDMIS.init g1 u2 pts draw).energy_diff g1 i := by
  refine ⟨⟨?_, ?_⟩, ?_⟩
  · unfold UDMIS.energy
    rw [hn, ho, he, hu]
  · intro i
    unfold UDMIS.energy_diff
    rw [hn, ho, he, hu]
  · intro u1 u2 pts draw
    exact ⟨rfl, fun i => rfl⟩

/-- Witness for C9: two states with different stored `u` and `graph` fields
but equal vertex count, occupations and edges, under ambient globals with
equal `u`, yield the same energies. -/
theorem C9_ambient_u_witness :
    (UDMIS.energy ⟨5, [], 1, [true], fun _ _ => false⟩ ⟨2, []⟩
        = UDMIS.energy ⟨7, [(9, 9)], 1, [true], fun _ _ => false⟩ ⟨2, [(4, 4)]⟩
      ∧ ∀ i, UDMIS.energy_diff ⟨5, [], 1, [true], fun _ _ => false⟩ ⟨2, []⟩ i
          = UDMIS.energy_diff ⟨7, [(9, 9)], 1, [true], fun _ _ => false⟩ ⟨2, [(4, 4)]⟩ i)
    ∧ ∀ (u1 u2 : ℚ) (pts : List Point) (draw : Nat → Bool),
        (UDMIS.init ⟨2, []⟩ u1 pts draw).energy ⟨2, []⟩
          = (UDMIS.init ⟨2, []⟩ u2 pts draw).energy ⟨2, []⟩
        ∧ ∀ i, (UDMIS.init ⟨2, []⟩ u1 pts draw).energy_diff ⟨2, []⟩ i
            = (UDMIS.init ⟨2, []⟩ u2 pts draw).energy_diff ⟨2, []⟩ i :=
  C9_ambient_u ⟨2, []⟩ ⟨2, [(4, 4)]⟩ rfl ⟨5, [], 1, [true], fun _ _ => false⟩
    ⟨7, [(9, 9)], 1, [true], fun _ _ => false⟩ rfl rfl rfl

/-- C5 fails on the code: `find_edges` reads its coordinates from the
ambient module-level `graph`, so the adjacency relation is not a function
of the constructor inputs alone.  Here two instances constructed from the
very same point sequence, under two different ambient globals, produce
different adjacency relations. -/
theorem C5_counterexample :
    (UDMIS.init ⟨1, [(0, 0), (0, 0)]⟩ 1 [(0, 0), (0, 0)] (fun _ => false)).edges 0 1 = true
    ∧ (UDMIS.init ⟨1, [(0, 0), (5, 0)]⟩ 1 [(0, 0), (0, 0)] (fun _ => false)).edges 0 1
      = false := by
  constructor
  · show find_edges 2 [(0, 0), (0, 0)] 0 1 = true
    norm_num [find_edges, setEdge, dist2, List.range_succ]
  · show find_edges 2 [(0, 0), (5, 0)] 0 1 = false
    norm_num [find_edges, setEdge, dist2, List.range_succ]

/-- C5 amended: the adjacency relation built at construction is a function
of the ambient global point sequence together with the LENGTH of the
constructor-supplied sequence (and the fixed radius); under a fixed
ambient global, any two instances whose constructor sequences have equal
length (in particular, equal sequences) produce equal adjacency
relations, irrespective of the constructor coordinates, the supplied `u`
and the random draw. -/
theorem C5_amended_length_only (g : Globals) (u1 u2 : ℚ) (pts1 pts2 : List Point)
    (draw1 draw2 : Nat → Bool) (hlen : pts1.length = pts2.length) :
    (UDMIS.init g u1 pts1 draw1).edges = (UDMIS.init g u2 pts2 draw2).edges := by
  show find_edges pts1.length g.graph = find_edges pts2.length g.graph
  rw [hlen]

/-- Witness for the amended C5 at concrete distinct constructor sequences. -/
theorem C5_amended_length_only_witness :
    (UDMIS.init ⟨1, [(0, 0), (0, 0)]⟩ 1 [(0, 0), (9, 9)] (fun _ => false)).edges
      = (UDMIS.init ⟨1, [(0, 0), (0, 0)]⟩ 2 [(3, 3), (4, 4)] (fun _ => true)).edges :=
  C5_amended_length_only ⟨1, [(0, 0), (0, 0)]⟩ 1 2 [(0, 0), (9, 9)] [(3, 3), (4, 4)]
    (fun _ => false) (fun _ => true) rfl

/-- C6 fails on the code: the constructor performs no validation, so an
empty point set together with a non-positive `u` is accepted and produces
a degenerate zero-vertex solver state instead of raising an error. -/
theorem C6_counterexample :
    (UDMIS.init ⟨1, []⟩ (-1) [] (fun _ => false)).num_vertices = 0
    ∧ (UDMIS.init ⟨1, []⟩ (-1) [] (fun _ => false)).occupations = []
    ∧ (UDMIS.init ⟨1, []⟩ (-1) [] (fun _ => false)).u = -1 :=
  ⟨rfl, rfl, rfl⟩

/-- C6 amended: construction rejects nothing: with an empty point set (and
any `u`, including non-positive ones, which are stored unchanged) the
constructor proceeds and builds the degenerate state with zero vertices,
no occupations and an empty edge relation. -/
theorem C6_amended_no_validation (g : Globals) (u : ℚ) (draw : Nat → Bool) :
    (UDMIS.init g u [] draw).num_vertices = 0
    ∧ (UDMIS.init g u [] draw).occupations = []
    ∧ (∀ a b, (UDMIS.init g u [] draw).edges a b = false)
    ∧ (UDMIS.init g u [] draw).u = u := by
  refine ⟨rfl, rfl, ?_, rfl⟩
  intro a b
  show find_edges 0 g.graph a b = false
  rw [← Bool.not_eq_true, find_edges_true_iff]
  rintro ⟨i, j, hij, hjn, _, _⟩
  omega

/-- C3: Metropolis acceptance rule, settled against the spec-modelled
`mc_step` (the vertex pick `i` and the uniform draw `r` are parameters):
for every temperature `T > 0`, with `ΔE = energy_diff(i)`, the step
toggles `occupations[i]` whenever `ΔE ≤ 0`; when `ΔE > 0` it toggles
exactly when the uniform draw satisfies `r < exp(-ΔE / T)` and otherwise
leaves the configuration unchanged; in every case it returns the total
energy of the resulting configuration. -/
theorem C3_metropolis (s : UDMIS) (g : Globals) (T : ℝ) (hT : 0 < T)
    (i : Nat) (r : ℝ) (dE : ℚ) (h : s.energy_diff g i = some dE) :
    (dE ≤ 0 →
      s.mc_step g T i r = ((s.toggle i).energy g).map (fun E => (s.toggle i, E)))
    ∧ (0 < dE → r < Real.exp (-(dE : ℝ) / T) →
      s.mc_step g T i r = ((s.toggle i).energy g).map (fun E => (s.toggle i, E)))
    ∧ (0 < dE → Real.exp (-(dE : ℝ) / T) ≤ r →
      s.mc_step g T i r = (s.energy g).map (fun E => (s, E))) := by
  refine ⟨?_, ?_, ?_⟩
  · intro hle
    simp only [UDMIS.mc_step, h]
    rw [if_pos hle]
  · intro hgt hr
    simp only [UDMIS.mc_step, h]
    rw [if_neg (not_le.mpr hgt), if_pos hr]
  · intro hgt hr
    simp only [UDMIS.mc_step, h]
    rw [if_neg (not_le.mpr hgt), if_neg (not_lt.mpr hr)]

/-- Witness for C3: a two-vertex edgeless instance where flipping vertex 0
from unoccupied has `ΔE = -1 ≤ 0`, so the move is accepted and the energy
of the toggled configuration is returned. -/
theorem C3_metropolis_witness :
    (0 : ℝ) < 1 ∧ (-1 : ℚ) ≤ 0
    ∧ UDMIS.mc_step ⟨1, [(0, 0), (2, 0)], 2, [false, false], fun _ _ => false⟩
        ⟨1, [(0, 0), (2, 0)]⟩ 1 0 (1 / 2)
      = some (UDMIS.toggle ⟨1, [(0, 0), (2, 0)], 2, [false, false], fun _ _ => false⟩ 0,
          -1) := by
  have hd : UDMIS.energy_diff ⟨1, [(0, 0), (2, 0)], 2, [false, false], fun _ _ => false⟩
      ⟨1, [(0, 0), (2, 0)]⟩ 0 = some (-1) := by
    norm_num [UDMIS.energy_diff, occI, bInt, List.range_succ]
  refine ⟨by norm_num, by norm_num, ?_⟩
  rw [(C3_metropolis ⟨1, [(0, 0), (2, 0)], 2, [false, false], fun _ _ => false⟩
      ⟨1, [(0, 0), (2, 0)]⟩ 1 (by norm_num) 0 (1 / 2) (-1) hd).1 (by norm_num)]
  have hE : UDMIS.energy (UDMIS.toggle ⟨1, [(0, 0), (2, 0)], 2, [false, false],
      fun _ _ => false⟩ 0) ⟨1, [(0, 0), (2, 0)]⟩ = some (-1) := by
    norm_num [UDMIS.toggle, UDMIS.energy, pyGet, occI, bInt, List.range_succ]
  rw [hE]
  rfl

lemma energy_three (g : Globals) (u0 : ℚ) (pts : List Point)
    (e : Nat → Nat → Bool) (a b c : Bool)
    (e01 : e 0 1 = true) (e02 : e 0 2 = true) (e12 : e 1 2 = true) :
    UDMIS.energy ⟨u0, pts, 3, [a, b, c], e⟩ g
      = some (g.u * ((bInt a * bInt b + bInt a * bInt c + bInt b * bInt c : ℤ) : ℚ)
        - ((bInt a + bInt b + bInt c : ℤ) : ℚ)) := by
  have hr : List.range (3 - 1) = [0, 1] := rfl
  have hr1 : List.range' (0 + 1) (3 - (0 + 1)) = [1, 2] := rfl
  have hr2 : List.range' (1 + 1) (3 - (1 + 1)) = [2] := rfl
  have hget : pyGet [a, b, c] (((3 : Nat) : Int) - 1) = some c := rfl
  simp only [UDMIS.energy, hr, hr1, hr2, hget, List.map_cons, List.map_nil,
    List.sum_cons, List.sum_nil, e01, e02, e12, if_true]
  rw [Option.some.injEq]
  have h0 : occI [a, b, c] 0 = bInt a := rfl
  have h1 : occI [a, b, c] 1 = bInt b := rfl
  have h2 : occI [a, b, c] 2 = bInt c := rfl
  rw [h0, h1, h2]
  push_cast
  ring

/-- C7: Triangle scenario energies: for three points that are pairwise
within the radius (so `find_edges` yields the complete triangle) and
ambient interaction strength `u = 2`, the all-occupied configuration has
energy `3`, each configuration with exactly one occupied vertex has energy
`-1`, and `-1` is the minimum of the energy over all eight
configurations. -/
theorem C7_triangle (p0 p1 p2 : Point)
    (h01 : dist2 p0 p1 ≤ 1) (h02 : dist2 p0 p2 ≤ 1) (h12 : dist2 p1 p2 ≤ 1) :
    (UDMIS.energy ⟨2, [p0, p1, p2], 3, [true, true, true],
        find_edges 3 [p0, p1, p2]⟩ ⟨2, [p0, p1, p2]⟩ = some 3)
    ∧ (UDMIS.energy ⟨2, [p0, p1, p2], 3, [true, false, false],
        find_edges 3 [p0, p1, p2]⟩ ⟨2, [p0, p1, p2]⟩ = some (-1))
    ∧ (UDMIS.energy ⟨2, [p0, p1, p2], 3, [false, true, false],
        find_edges 3 [p0, p1, p2]⟩ ⟨2, [p0, p1, p2]⟩ = some (-1))
    ∧ (UDMIS.energy ⟨2, [p0, p1, p2], 3, [false, false, true],
        find_edges 3 [p0, p1, p2]⟩ ⟨2, [p0, p1, p2]⟩ = some (-1))
    ∧ ∀ (occ : List Bool) (v : ℚ), occ.length = 3 →
        UDMIS.energy ⟨2, [p0, p1, p2], 3, occ,
          find_edges 3 [p0, p1, p2]⟩ ⟨2, [p0, p1, p2]⟩ = some v → -1 ≤ v := by
  have e01 : find_edges 3 [p0, p1, p2] 0 1 = true := by
    rw [find_edges_true_iff_lt 3 [p0, p1, p2] 0 1 (by norm_num) (by norm_num)]
    exact ⟨by norm_num, h01⟩
  have e02 : find_edges 3 [p0, p1, p2] 0 2 = true := by
    rw [find_edges_true_iff_lt 3 [p0, p1, p2] 0 2 (by norm_num) (by norm_num)]
    exact ⟨by norm_num, h02⟩
  have e12 : find_edges 3 [p0, p1, p2] 1 2 = true := by
    rw [find_edges_true_iff_lt 3 [p0, p1, p2] 1 2 (by norm_num) (by norm_num)]
    exact ⟨by norm_num, h12⟩
  have hE := fun a b c => energy_three ⟨2, [p0, p1, p2]⟩ 2 [p0, p1, p2]
    (find_edges 3 [p0, p1, p2]) a b c e01 e02 e12
  refine ⟨?_, ?_, ?_, ?_, ?_⟩
  · rw [hE true true true]
    norm_num [bInt]
  · rw [hE true false false]
    norm_num [bInt]
  · rw [hE false true false]
    norm_num [bInt]
  · rw [hE false false true]
    norm_num [bInt]
  · intro occ v hlen3 hv
    obtain ⟨a, b, c, rfl⟩ : ∃ a b c, occ = [a, b, c] := by
      match occ, hlen3 with
      | [a, b, c], _ => exact ⟨a, b, c, rfl⟩
    rw [hE a b c, Option.some.injEq] at hv
    subst hv
    cases a <;> cases b <;> cases c <;> norm_num [bInt]

/-- Witness for C7 at a concrete triangle with all pairwise distances within
the radius. -/
theorem C7_triangle_witness :
    dist2 ((0 : ℚ), (0 : ℚ)) (1, 0) ≤ 1
    ∧ dist2 ((0 : ℚ), (0 : ℚ)) (1 / 2, 1 / 2) ≤ 1
    ∧ dist2 ((1 : ℚ), (0 : ℚ)) (1 / 2, 1 / 2) ≤ 1
    ∧ UDMIS.energy ⟨2, [((0 : ℚ), (0 : ℚ)), (1, 0), (1 / 2, 1 / 2)], 3,
        [true, true, true],
        find_edges 3 [((0 : ℚ), (0 : ℚ)), (1, 0), (1 / 2, 1 / 2)]⟩
        ⟨2, [((0 : ℚ), (0 : ℚ)), (1, 0), (1 / 2, 1 / 2)]⟩ = some 3
    ∧ UDMIS.energy ⟨2, [((0 : ℚ), (0 : ℚ)), (1, 0), (1 / 2, 1 / 2)], 3,
        [true, false, false],
        find_edges 3 [((0 : ℚ), (0 : ℚ)), (1, 0), (1 / 2, 1 / 2)]⟩
        ⟨2, [((0 : ℚ), (0 : ℚ)), (1, 0), (1 / 2, 1 / 2)]⟩ = some (-1) := by
  have h01 : dist2 ((0 : ℚ), (0 : ℚ)) (1, 0) ≤ 1 := by norm_num [dist2]
  have h02 : dist2 ((0 : ℚ), (0 : ℚ)) (1 / 2, 1 / 2) ≤ 1 := by norm_num [dist2]
  have h12 : dist2 ((1 : ℚ), (0 : ℚ)) (1 / 2, 1 / 2) ≤ 1 := by norm_num [dist2]
  have H := C7_triangle ((0 : ℚ), (0 : ℚ)) (1, 0) (1 / 2, 1 / 2) h01 h02 h12
  exact ⟨h01, h02, h12, H.1, H.2.1⟩
